import Mathlib

/-!
Verification development for the Zia modular HTTP server API
(`include/zia/Zia.hpp`, `include/zia/module/*.hpp`, README).

The repository is pure interface surface: it declares the module
contracts (streams, connections, parser, handlers, sniffers, loggers,
configuration handles) and documents, in the header comments and the
README, the behaviour the server core must implement around them.  The
data model below is embedded from `Zia.hpp`; the engine behaviours
(request resolution, observation fan-out, write pumping, connection
lifecycle) are not present as code in the repository, so they are
modelled from the specification's words, each such definition marked
`Modelled from the spec:`.

Modelling conventions: C++ `double` quality/priority values become `ℚ`;
`std::vector<char>` becomes `List Char`; `std::map<K,V>` becomes an
association list `List (K × V)`; `std::optional<T>` becomes `Option T`.
-/

namespace Zia

/-- HTTP 1.1 methods, from `Zia.hpp` (`Request::Method`). -/
inductive Method where
  | Options | Get | Head | Post | Put | Delete | Trace | Connect
  | Patch | Link | Unlink
  deriving DecidableEq, Repr

/-- An accepted media kind, from `Zia.hpp` (`Request::MediaRange`):
a media type string such as `*/*`, a quality in 0..1, and user-defined
extension data. -/
structure MediaRange where
  type : String
  quality : ℚ
  extension : List (String × String)
  deriving DecidableEq, Repr

/-- An accepted language, from `Zia.hpp` (`Request::LanguageRange`). -/
structure LanguageRange where
  language : String
  quality : ℚ
  deriving DecidableEq, Repr

/-- An accepted encoding, from `Zia.hpp` (`Request::Codings`). -/
structure Codings where
  contentCoding : String
  quality : ℚ
  deriving DecidableEq, Repr

/-- A HTTP 1.1 request, from `Zia.hpp` (`Zia::Request`), field for
field: raw data, lines, key-value options, method, url, path, decoded
arguments, protocol, host, user agent, accept media ranges,
accept-language ranges, accept-encoding codings, close-connection flag
and upgrade-insecure flag. -/
structure Request where
  data : List Char
  lines : List String
  options : List (String × String)
  method : Method
  url : String
  path : String
  arguments : List (String × String)
  protocol : String
  host : String
  userAgent : String
  accept : List MediaRange
  acceptLanguage : List LanguageRange
  acceptEncoding : List Codings
  closeConnection : Bool
  upgradeInsecureRequests : Bool
  deriving DecidableEq, Repr

/-- A HTTP 1.1 response, from `Zia.hpp` (`Zia::Response`): an opaque
pre-serialized byte payload, no formatting required. -/
structure Response where
  data : List Char
  deriving DecidableEq, Repr

/-- Configuration formats, from `Zia.hpp` (`IConf::Type`; named
`ConfFormat` here because `Type` is not usable as a Lean name). -/
inductive ConfFormat where
  | Undefined | Json | Xml | Ini
  deriving DecidableEq, Repr

/-- The state of a per-module configuration handle, from `Zia.hpp`
(`Zia::IConf`): it stores the last written configuration (format hint
and raw bytes), or nothing if never written. -/
structure IConf where
  stored : Option (ConfFormat × List Char)
  deriving DecidableEq, Repr

/-- A configuration handle that was never written. -/
def IConf.initial : IConf := ⟨none⟩

/-- Read the configuration, from `Zia.hpp` (`IConf::read`): returns the
configuration data; if there was no precedent write, returns an empty
vector. -/
def IConf.read (c : IConf) : List Char :=
  match c.stored with
  | none => []
  | some (_, d) => d

/-- Overwrite the configuration, from `Zia.hpp` (`IConf::write`): the
stored configuration is replaced by the given format hint and data. -/
def IConf.write (_c : IConf) (t : ConfFormat) (d : List Char) : IConf :=
  { stored := some (t, d) }

/-- Modelled from the spec: component matching for media-type patterns
(spec 4.3: wildcard patterns match broadly). A component matches when
either side is `*` or the two are equal. -/
def partMatch (a b : List Char) : Bool := a == ['*'] || b == ['*'] || a == b

/-- Split a media-type string of shape `main/sub` at its first slash. -/
def splitSlash (s : String) : Option (List Char × List Char) :=
  let p := s.toList.span (fun c => c ≠ '/')
  match p.2 with
  | [] => none
  | _ :: b => some (p.1, b)

/-- Modelled from the spec: media-type pattern matching for the
priority-match policy (spec 4.3: a handler's declared patterns are
matched against the request's accept media ranges, wildcard patterns
matching broadly). Two `main/sub` shapes match componentwise with `*`
as wildcard; anything else matches only by equality. -/
def mediaMatch (pattern typ : String) : Bool :=
  match splitSlash pattern, splitSlash typ with
  | some (pm, ps), some (tm, ts) => partMatch pm tm && partMatch ps ts
  | _, _ => pattern == typ

/-- Modelled from the spec: a handler's best-matching weight against a
request's accept media ranges (spec 4.3): the maximum declared weight
among the handler's (pattern, weight) pairs whose pattern matches some
accept range of the request, and `⊥` when none matches. Within-handler
specificity precedence at equal weight does not change this maximum and
is not modelled. -/
def bestWeight (accepts : List (String × ℚ)) (ranges : List MediaRange) :
    WithBot ℚ :=
  ((accepts.filter fun p => ranges.any fun mr => mediaMatch p.1 mr.type).map
      fun p => ((p.2 : ℚ) : WithBot ℚ)).foldr max ⊥

/-- Outcome of one handler invocation: a normal return carrying the
optional response of `IHandler::handle` (`Zia.hpp`), or an irrecoverable
failure (spec 4.3 failure handling). -/
inductive HandlerOutcome where
  | ok (resp : Option Response)
  | fail
  deriving DecidableEq, Repr

/-- Modelled from the spec: a registered handler as the engine sees it
(HandlerDescriptor, spec 3): its declared `getAccept` list of
(media-type pattern, weight) pairs and its `handle` function. -/
structure Handler where
  getAccept : List (String × ℚ)
  handle : Request → HandlerOutcome

/-- Placeholder handler used only for out-of-range indexing. -/
def Handler.dummy : Handler := ⟨[], fun _ => .ok none⟩

/-- The matched weight of the handler registered at index `i`. -/
def handlerWeight (hs : List Handler) (req : Request) (i : Nat) :
    WithBot ℚ :=
  bestWeight (hs.getD i Handler.dummy).getAccept req.accept

/-- Modelled from the spec: the visitation precedence of the
priority-match policy (spec 4.3): index `i` precedes `j` when its
matched weight is strictly greater, or the weights are equal and `i`
was registered no later (tie-break by configuration order). -/
def visitRel (w : Nat → WithBot ℚ) (i j : Nat) : Prop :=
  w j < w i ∨ (w i = w j ∧ i ≤ j)

instance (w : Nat → WithBot ℚ) : DecidableRel (visitRel w) := fun _ _ =>
  inferInstanceAs (Decidable (_ ∨ _))

instance (w : Nat → WithBot ℚ) : IsTotal Nat (visitRel w) := by
  constructor
  intro i j
  rcases lt_trichotomy (w i) (w j) with h | h | h
  · exact Or.inr (Or.inl h)
  · rcases Nat.le_total i j with hij | hij
    · exact Or.inl (Or.inr ⟨h, hij⟩)
    · exact Or.inr (Or.inr ⟨h.symm, hij⟩)
  · exact Or.inl (Or.inl h)

instance (w : Nat → WithBot ℚ) : IsTrans Nat (visitRel w) := by
  constructor
  intro i j k hij hjk
  rcases hij with hij | ⟨hij, hij'⟩ <;> rcases hjk with hjk | ⟨hjk, hjk'⟩
  · exact Or.inl (lt_trans hjk hij)
  · exact Or.inl (hjk ▸ hij)
  · exact Or.inl (hij ▸ hjk)
  · exact Or.inr ⟨hij.trans hjk, hij'.trans hjk'⟩

/-- Modelled from the spec: the visitation order of the priority-match
policy (spec 4.3): all registered handler indices, sorted descending by
matched weight with ties broken by registration order; unmatched
handlers (`⊥` weight) sort last. -/
def visitOrder (hs : List Handler) (req : Request) : List Nat :=
  List.insertionSort (visitRel (handlerWeight hs req)) (List.range hs.length)

/-- Connection-logger line recorded when a handler invocation fails
irrecoverably (spec 4.3 failure handling). -/
def failLog (i : Nat) : String := "handler " ++ toString i ++ " failed"

/-- Modelled from the spec: visit handlers in the given order, invoking
`handle(request, connectionLogger)` on each (spec 4.3): the first
produced response resolves the request and visitation stops
immediately; a handler returning no result is skipped; a handler that
fails irrecoverably is treated as no result, the failure is logged via
the connection logger, and the engine continues with the next handler.
Returns the resolution, the invoked handler indices in invocation
order, and the connection-logger lines produced. -/
def resolveSeq (hs : List Handler) (req : Request) :
    List Nat → Option Response × List Nat × List String
  | [] => (none, [], [])
  | i :: rest =>
    match (hs.getD i Handler.dummy).handle req with
    | .ok (some r) => (some r, [i], [])
    | .ok none =>
      let t := resolveSeq hs req rest
      (t.1, i :: t.2.1, t.2.2)
    | .fail =>
      let t := resolveSeq hs req rest
      (t.1, i :: t.2.1, failLog i :: t.2.2)

/-- Modelled from the spec: a configured sniffer as the engine sees it
(`ISniffer`, `Zia.hpp`): whether each of its three observation
callbacks fails when invoked (spec 4.4 fan-out isolation). -/
structure Sniffer where
  failOnRequest : Bool
  failOnResponse : Bool
  failOnMiss : Bool

/-- A sniffer-callback delivery event: the callback of `ISniffer`
invoked, tagged with the registration index of the receiving sniffer. -/
inductive SnifferEvent where
  | gotRequest (sniffer : Nat)
  | gotResponse (sniffer : Nat)
  | gotRequestMiss (sniffer : Nat)
  deriving DecidableEq, Repr

/-- Log line recorded when a sniffer callback fails (spec 4.4). -/
def snifferFailLog (i : Nat) : String := "sniffer " ++ toString i ++ " failed"

/-- Modelled from the spec: observation fan-out over sniffers
(spec 4.4): the callback selected by `mk` is delivered to every
configured sniffer in registration order; a failing sniffer is logged
and skipped in isolation, never preventing delivery to subsequent
sniffers. Returns the delivery events and the failure log lines. -/
def fanout (mk : Nat → SnifferEvent) (fails : Sniffer → Bool) :
    List Sniffer → Nat → List SnifferEvent × List String
  | [], _ => ([], [])
  | s :: rest, i =>
    let t := fanout mk fails rest (i + 1)
    (mk i :: t.1, if fails s then snifferFailLog i :: t.2 else t.2)

/-- Everything the engine produces for one request under the
priority-match policy: the resolution, the invoked handler indices, the
sniffer delivery events, and the log lines. -/
structure RequestResult where
  resolution : Option Response
  invoked : List Nat
  events : List SnifferEvent
  logs : List String

/-- Modelled from the spec: the response bytes written to the default
connection for a request outcome — the resolved response's bytes, or
nothing on a miss (spec 4.3: a miss produces no response to write). -/
def writtenBytes (r : RequestResult) : Option (List Char) :=
  r.resolution.map Response.data

/-- Modelled from the spec: full treatment of one request under the
priority-match policy (spec 4.3 and 4.4): every sniffer receives
`gotRequest` at receipt time; handlers are visited in `visitOrder`
until the first produced response; on resolution every sniffer receives
`gotResponse`, on a miss every sniffer receives `gotRequestMiss`. -/
def processRequest (hs : List Handler) (sn : List Sniffer) (req : Request) :
    RequestResult :=
  let recv := fanout SnifferEvent.gotRequest Sniffer.failOnRequest sn 0
  let t := resolveSeq hs req (visitOrder hs req)
  match t.1 with
  | some r =>
    let resp := fanout SnifferEvent.gotResponse Sniffer.failOnResponse sn 0
    ⟨some r, t.2.1, recv.1 ++ resp.1, recv.2 ++ t.2.2 ++ resp.2⟩
  | none =>
    let miss := fanout SnifferEvent.gotRequestMiss Sniffer.failOnMiss sn 0
    ⟨none, t.2.1, recv.1 ++ miss.1, recv.2 ++ t.2.2 ++ miss.2⟩

/-- Modelled from the spec: a configured logger (`ILogger`, `Zia.hpp`):
whether it fails when logging a given line (spec 4.4 log fan-out). -/
structure Logger where
  failsOn : String → Bool

/-- Modelled from the spec: log fan-out (spec 4.4): a logged line is
delivered to every configured logger in registration order; a failing
logger is skipped in isolation and never prevents delivery to the
others. Returns the indices the line was delivered to and the indices
that failed while handling it. -/
def logFanout : List Logger → String → Nat → List Nat × List Nat
  | [], _, _ => ([], [])
  | l :: rest, line, i =>
    let t := logFanout rest line (i + 1)
    (i :: t.1, if l.failsOn line then i :: t.2 else t.2)

/-- The response produced by the handler registered at index `i` for a
request, if any: a handler produces a response exactly when its
`handle` invocation returns normally with a non-nullopt response. -/
def produces (hs : List Handler) (req : Request) (i : Nat) :
    Option Response :=
  match (hs.getD i Handler.dummy).handle req with
  | .ok (some r) => some r
  | _ => none

/-- A concrete request accepting `text/html`, used in the examples the
spec's testable properties call for. -/
def exampleRequest : Request :=
  { data := [], lines := [], options := [], method := .Get, url := "/",
    path := "/", arguments := [], protocol := "HTTP/1.1",
    host := "localhost", userAgent := "",
    accept := [⟨"text/html", 1, []⟩], acceptLanguage := [],
    acceptEncoding := [], closeConnection := false,
    upgradeInsecureRequests := false }

/-- The handler set of the spec's testable property for the
priority-match policy: declared weights 0.9, 0.5, 0.9 in registration
order, all matching `text/html`. -/
def exampleHandlers : List Handler :=
  [⟨[("text/html", mkRat 9 10)], fun _ => .ok none⟩,
   ⟨[("text/html", mkRat 1 2)], fun _ => .ok none⟩,
   ⟨[("text/html", mkRat 9 10)], fun _ => .ok none⟩]

/-- The structured mutable response of the ordered-chain policy
(README section IV and spec 4.3): status code, header map and body,
mutated in place by each handler. -/
structure ChainResponse where
  code : Nat
  headers : List (String × String)
  body : List Char
  deriving DecidableEq, Repr

/-- A handler under the ordered-chain policy: mutates the current
response state (README section IV). -/
def ChainHandler : Type := ChainResponse → ChainResponse

/-- Modelled from the spec: the response implicitly seeded before the
first ordered-chain handler runs — status code 200, no headers, empty
body (README section IV, spec 4.3). -/
def seedResponse : ChainResponse := ⟨200, [], []⟩

/-- Whether a status code is 2xx; a non-2xx code set by a handler marks
the last handler of the ordered chain (README section IV). -/
def is2xx (c : Nat) : Bool := 200 ≤ c && c < 300

/-- Modelled from the spec: the ordered-chain visitation loop
(README section IV, spec 4.3): run each handler in configuration order
over the current response state; a handler leaving a non-2xx status
code terminates the chain immediately after it runs. `i` is the
configuration index of the first handler of `hs`. Returns the final
response state and the invoked handler indices. -/
def runChainFrom (i : Nat) (st : ChainResponse) :
    List ChainHandler → ChainResponse × List Nat
  | [] => (st, [])
  | h :: rest =>
    let st' := h st
    if is2xx st'.code then
      let t := runChainFrom (i + 1) st' rest
      (t.1, i :: t.2)
    else (st', [i])

/-- Modelled from the spec: the whole ordered-chain policy for one
request: seed status 200, visit handlers in configuration order with
non-2xx termination; the final state is the response written to the
connection — a response always exists, there is no miss state. -/
def runChain (hs : List ChainHandler) : ChainResponse × List Nat :=
  runChainFrom 0 seedResponse hs

/-- The three handlers of the spec's ordered-chain testable property:
H1 sets header X and leaves the 200 code, H2 sets code 404, H3 would
set header Y. -/
def chainH1 : ChainHandler := fun st => { st with headers := ("X", "x") :: st.headers }

/-- Second ordered-chain scenario handler: sets code 404. -/
def chainH2 : ChainHandler := fun st => { st with code := 404 }

/-- Third ordered-chain scenario handler: would set header Y. -/
def chainH3 : ChainHandler := fun st => { st with headers := ("Y", "y") :: st.headers }

/-- State of the per-connection response writer (spec 5): index of the
next response to write (in request emission order), emission indices of
responses that completed resolution but are not yet written, and the
bytes written so far on the connection's output stream. -/
structure WState where
  next : Nat
  buf : List Nat
  out : List Char
  deriving DecidableEq, Repr

/-- Modelled from the spec: the flush step of the serialized response
writer (spec 5: writing to the connection's output stream is
serialized, responses go out in request emission order): while the
response due next is buffered, append its bytes — whole, never
interleaved — to the output stream. `fuel` bounds the iteration count;
`buf.length` always suffices. -/
def flushW (resp : Nat → List Char) :
    Nat → Nat → List Nat → List Char → WState
  | 0, next, buf, out => ⟨next, buf, out⟩
  | fuel + 1, next, buf, out =>
    if next ∈ buf then
      flushW resp fuel (next + 1) (buf.erase next) (out ++ resp next)
    else ⟨next, buf, out⟩

/-- Modelled from the spec: completion of resolution of the request
emitted at index `i` (spec 5: resolution of a later request may finish
before an earlier one's response is written): buffer response `i`, then
flush whatever has become due. -/
def stepW (resp : Nat → List Char) (st : WState) (i : Nat) : WState :=
  flushW resp (i :: st.buf).length st.next (i :: st.buf) st.out

/-- Modelled from the spec: the per-connection response writer run over
a completion schedule — the order in which the resolutions of the
emitted requests finish, an arbitrary permutation of the emission
order. All writes pass through the FIFO flush, so the output stream
stays in emission order regardless of the schedule. -/
def runWriter (resp : Nat → List Char) (order : List Nat) : WState :=
  order.foldl (stepW resp) ⟨0, [], []⟩

/-- A non-blocking output stream (`IOutput`, `Zia.hpp`): `write a n`
is the byte count accepted at attempt `a` out of `n` remaining bytes;
it returns immediately, and accepts between 0 and `n` bytes — 0 means
no availability now, not failure. -/
structure OutStream where
  write : Nat → Nat → Nat
  write_le : ∀ a n, write a n ≤ n

/-- A non-blocking input stream (`IInput`, `Zia.hpp`): `read a n`
returns immediately with 0..n bytes polled at attempt `a`; 0 means no
data now, not EOF. -/
structure InStream where
  read : Nat → Nat → Nat
  read_le : ∀ a n, read a n ≤ n

/-- Final status of driving one response write (spec 5 and 7):
completed, or connection dropped after the bounded retry window. -/
inductive WriteStatus where
  | completed
  | dropped
  deriving DecidableEq, Repr

/-- Outcome of driving one response write: status, number of write
attempts made, and log lines produced. -/
structure WriteResult where
  status : WriteStatus
  attempts : Nat
  log : List String
  deriving DecidableEq, Repr

/-- Log line recorded when the retry window is exhausted and the
connection is dropped (spec 5: a write availability that never comes
must surface as a connection-level timeout/drop, never silently). -/
def dropLog : String := "connection dropped: write availability timeout"

/-- Modelled from the spec: the retry-with-backoff write pump (spec 5):
repeatedly offer the remaining bytes to the stream; a zero-byte
acceptance consumes one unit of the bounded retry budget, and an
exhausted budget drops the connection and logs the drop; positive
acceptances shrink the remainder until completion. `fuel` bounds the
iteration count; `budget + remaining` always suffices. -/
def driveWrite (s : OutStream) :
    Nat → Nat → Nat → Nat → WriteResult
  | _, attempt, _, 0 => ⟨.completed, attempt, []⟩
  | 0, attempt, _, _ + 1 => ⟨.dropped, attempt, [dropLog]⟩
  | fuel + 1, attempt, budget, remaining + 1 =>
    let a := s.write attempt (remaining + 1)
    if a = 0 then
      match budget with
      | 0 => ⟨.dropped, attempt + 1, [dropLog]⟩
      | b + 1 => driveWrite s fuel (attempt + 1) b (remaining + 1)
    else driveWrite s fuel (attempt + 1) budget (remaining + 1 - a)

/-- Modelled from the spec: write one full response on the connection's
output stream under the bounded retry policy with zero-return budget
`budget` (spec 5 and testable property 7). -/
def writeResponse (s : OutStream) (budget : Nat) (data : List Char) :
    WriteResult :=
  driveWrite s (budget + data.length + 1) 0 budget data.length

/-- The two connections a client may own: the base connection, or the
wrapper-derived connection (`IConnectionWrapper`, `Zia.hpp`). -/
inductive ConnTarget where
  | base
  | derived
  deriving DecidableEq, Repr

/-- One client I/O operation, as requested by the engine. -/
inductive ConnOp where
  | opRead
  | opWrite
  deriving DecidableEq, Repr

/-- Observable events of a client connection's lifecycle: base
connection accepted, wrapper `create(baseConnection)` invoked, a read
or write routed to a connection, and the two teardown destructions. -/
inductive ConnEvent where
  | acceptBase
  | wrapCreate
  | ioRead (target : ConnTarget)
  | ioWrite (target : ConnTarget)
  | destroyDerived
  | destroyBase
  deriving DecidableEq, Repr

/-- Modelled from the spec: the default connection used for all client
I/O — the wrapper-derived connection when a wrapper is configured, the
base connection otherwise (spec 4.1, `Zia.hpp` mainpage II). -/
def defaultTarget (wrapped : Bool) : ConnTarget :=
  if wrapped then .derived else .base

/-- Modelled from the spec: connection setup (spec 4.1): the base
connection is created on accept; if a wrapper module is configured,
`create(baseConnection)` is invoked once to produce the derived
connection. -/
def setupEvents (wrapped : Bool) : List ConnEvent :=
  .acceptBase :: (if wrapped then [.wrapCreate] else [])

/-- Route one I/O operation through the default connection. -/
def ioEvent (wrapped : Bool) (op : ConnOp) : ConnEvent :=
  match op with
  | .opRead => .ioRead (defaultTarget wrapped)
  | .opWrite => .ioWrite (defaultTarget wrapped)

/-- Modelled from the spec: connection teardown (spec 4.1, `Zia.hpp`
`IConnectionWrapper::create` note): the derived connection, when one
exists, is destroyed strictly before the base connection. -/
def teardownEvents (wrapped : Bool) : List ConnEvent :=
  if wrapped then [.destroyDerived, .destroyBase] else [.destroyBase]

/-- Modelled from the spec: the full event trace of one client
connection: setup, all I/O through the default connection, teardown. -/
def connectionLifecycle (wrapped : Bool) (ops : List ConnOp) :
    List ConnEvent :=
  setupEvents wrapped ++ ops.map (ioEvent wrapped) ++ teardownEvents wrapped

/-- Invariant of the serialized response writer, relative to the
predicate `P` holding of the emission indices whose resolution has
completed so far: every index below `next` has completed and been
written, the buffer holds exactly the completed indices not yet due,
the index due next has not completed, the buffer holds no duplicates,
and the output stream is the concatenation, in emission order, of the
responses written so far. -/
def WriterInv (resp : Nat → List Char) (P : Nat → Prop) (st : WState) :
    Prop :=
  (∀ j < st.next, P j)
    ∧ (∀ j, j ∈ st.buf ↔ (P j ∧ st.next ≤ j))
    ∧ ¬ P st.next
    ∧ st.buf.Nodup
    ∧ st.out = ((List.range st.next).map resp).flatten

end Zia

/-- Claim C6: read on a never-written ConfigHandle returns an empty result;
for every byte sequence `d` and format hint `t`, `write t d` followed by
`read` returns exactly `d`; and each write overwrites the previous
stored configuration. -/
theorem Zia.conf_read_roundtrip (c : Zia.IConf) (t t' : Zia.ConfFormat)
    (d d' : List Char) :
    Zia.IConf.initial.read = []
      ∧ (c.write t d).read = d
      ∧ (c.write t d).write t' d' = c.write t' d' := by
  refine ⟨rfl, rfl, rfl⟩

namespace Zia

/-- Visiting a block of non-producing handlers before the rest changes
neither the resolution nor anything after the block: the skipped
indices are prepended to the invocation list, and the failure logs of
the block's failing handlers are prepended to the log. -/
theorem resolveSeq_skip (hs : List Handler) (req : Request)
    (pre rest : List Nat) (hpre : ∀ j ∈ pre, produces hs req j = none) :
    (resolveSeq hs req (pre ++ rest)).1 = (resolveSeq hs req rest).1
      ∧ (resolveSeq hs req (pre ++ rest)).2.1
          = pre ++ (resolveSeq hs req rest).2.1
      ∧ (resolveSeq hs req (pre ++ rest)).2.2
          = (pre.filter
              fun j => (hs.getD j Handler.dummy).handle req = .fail).map failLog
            ++ (resolveSeq hs req rest).2.2 := by
  induction pre with
  | nil => simp
  | cons j pre ih =>
    have hj := hpre j (List.mem_cons_self j pre)
    have hrest : ∀ i ∈ pre, produces hs req i = none := fun i hi =>
      hpre i (List.mem_cons_of_mem j hi)
    obtain ⟨ih1, ih2, ih3⟩ := ih hrest
    unfold produces at hj
    cases h : (hs.getD j Handler.dummy).handle req with
    | ok o =>
      cases o with
      | some r => rw [h] at hj; exact absurd hj (by simp)
      | none =>
        simp only [List.getD_eq_getElem?_getD] at h
        simp [resolveSeq, h, ih1, ih2, ih3]
    | fail =>
      simp only [List.getD_eq_getElem?_getD] at h
      simp [resolveSeq, h, ih1, ih2, ih3]

end Zia

/-- Claim C1: under the priority-match policy, for every request and every
ordered handler visitation sequence, the first handler whose
`handle(request, connectionLogger)` call returns a produced response
resolves the request, visitation stops immediately, and no handler
after the resolving one is invoked for that request. -/
theorem Zia.priority_first_response_resolves
    (hs : List Zia.Handler) (req : Zia.Request) (pre post : List Nat)
    (k : Nat) (r : Zia.Response)
    (hpre : ∀ j ∈ pre, Zia.produces hs req j = none)
    (hk : (hs.getD k Zia.Handler.dummy).handle req = .ok (some r)) :
    (Zia.resolveSeq hs req (pre ++ k :: post)).1 = some r
      ∧ (Zia.resolveSeq hs req (pre ++ k :: post)).2.1 = pre ++ [k]
      ∧ ∀ j ∈ post, j ∉ pre → j ≠ k →
          j ∉ (Zia.resolveSeq hs req (pre ++ k :: post)).2.1 := by
  obtain ⟨h1, h2, _⟩ := Zia.resolveSeq_skip hs req pre (k :: post) hpre
  have hkstep : Zia.resolveSeq hs req (k :: post) = (some r, [k], []) := by
    simp only [List.getD_eq_getElem?_getD] at hk
    simp [Zia.resolveSeq, hk]
  refine ⟨by rw [h1, hkstep], by rw [h2, hkstep], ?_⟩
  intro j _ hjpre hjk hmem
  rw [h2, hkstep] at hmem
  rcases List.mem_append.mp hmem with h | h
  · exact hjpre h
  · exact hjk (List.mem_singleton.mp h)

/-- Witness for claim C1: a concrete two-handler sequence where the second
visited handler produces a response; the first visited handler is
skipped and the handler after the resolver is never invoked. -/
theorem Zia.priority_first_response_resolves_witness :
    (Zia.resolveSeq
        [⟨[], fun _ => .ok none⟩, ⟨[], fun _ => .ok (some ⟨['h', 'i']⟩)⟩,
         ⟨[], fun _ => .ok (some ⟨['n', 'o']⟩)⟩]
        Zia.exampleRequest ([0] ++ 1 :: [2])).1 = some ⟨['h', 'i']⟩
      ∧ (Zia.resolveSeq
          [⟨[], fun _ => .ok none⟩, ⟨[], fun _ => .ok (some ⟨['h', 'i']⟩)⟩,
           ⟨[], fun _ => .ok (some ⟨['n', 'o']⟩)⟩]
          Zia.exampleRequest ([0] ++ 1 :: [2])).2.1 = [0] ++ [1]
      ∧ ∀ j ∈ [2], j ∉ [0] → j ≠ 1 →
          j ∉ (Zia.resolveSeq
            [⟨[], fun _ => .ok none⟩, ⟨[], fun _ => .ok (some ⟨['h', 'i']⟩)⟩,
             ⟨[], fun _ => .ok (some ⟨['n', 'o']⟩)⟩]
            Zia.exampleRequest ([0] ++ 1 :: [2])).2.1 :=
  Zia.priority_first_response_resolves _ _ [0] [2] 1 ⟨['h', 'i']⟩
    (by decide) (by decide)

/-- Claim C2: under the priority-match policy the engine visits handlers in
strictly descending order of best-matching weight computed from each
handler's declared (media-type pattern, weight) pairs against the
request's accept media ranges, ties at equal matched weight broken by
registration order; the visitation order covers exactly the registered
handlers; and for the handler set with weights [0.9, 0.5, 0.9] the
earlier-registered weight-0.9 handler is visited before the later one:
the computed order is [0, 2, 1]. -/
theorem Zia.priority_visit_order_sorted
    (hs : List Zia.Handler) (req : Zia.Request) (i j : Nat)
    (hij : i < j) (hj : j < (Zia.visitOrder hs req).length) :
    (Zia.handlerWeight hs req ((Zia.visitOrder hs req).getD j 0)
          < Zia.handlerWeight hs req ((Zia.visitOrder hs req).getD i 0)
        ∨ (Zia.handlerWeight hs req ((Zia.visitOrder hs req).getD i 0)
              = Zia.handlerWeight hs req ((Zia.visitOrder hs req).getD j 0)
            ∧ (Zia.visitOrder hs req).getD i 0
                < (Zia.visitOrder hs req).getD j 0))
      ∧ (Zia.visitOrder hs req).Perm (List.range hs.length)
      ∧ Zia.visitOrder Zia.exampleHandlers Zia.exampleRequest = [0, 2, 1] := by
  have hperm : (Zia.visitOrder hs req).Perm (List.range hs.length) :=
    List.perm_insertionSort _ _
  have hsorted :
      (Zia.visitOrder hs req).Pairwise
        (Zia.visitRel (Zia.handlerWeight hs req)) :=
    List.sorted_insertionSort _ _
  have hnodup : (Zia.visitOrder hs req).Nodup :=
    hperm.nodup_iff.mpr (List.nodup_range hs.length)
  have hpair := hsorted.and hnodup
  rw [List.pairwise_iff_getElem] at hpair
  have hi : i < (Zia.visitOrder hs req).length := lt_trans hij hj
  obtain ⟨hrel, hne⟩ := hpair i j hi hj hij
  refine ⟨?_, hperm, by decide⟩
  rw [List.getD_eq_getElem _ _ hi, List.getD_eq_getElem _ _ hj]
  rcases hrel with hlt | ⟨heq, hle⟩
  · exact Or.inl hlt
  · exact Or.inr ⟨heq, lt_of_le_of_ne hle hne⟩

/-- Witness for claim C2: in the [0.9, 0.5, 0.9] handler set the first two
visited handlers are index 0 then index 2 — equal matched weight 0.9,
earlier registration first. -/
theorem Zia.priority_visit_order_sorted_witness :
    (Zia.handlerWeight Zia.exampleHandlers Zia.exampleRequest
          ((Zia.visitOrder Zia.exampleHandlers Zia.exampleRequest).getD 1 0)
        < Zia.handlerWeight Zia.exampleHandlers Zia.exampleRequest
            ((Zia.visitOrder Zia.exampleHandlers Zia.exampleRequest).getD 0 0)
      ∨ (Zia.handlerWeight Zia.exampleHandlers Zia.exampleRequest
            ((Zia.visitOrder Zia.exampleHandlers Zia.exampleRequest).getD 0 0)
          = Zia.handlerWeight Zia.exampleHandlers Zia.exampleRequest
              ((Zia.visitOrder Zia.exampleHandlers Zia.exampleRequest).getD 1 0)
          ∧ (Zia.visitOrder Zia.exampleHandlers Zia.exampleRequest).getD 0 0
              < (Zia.visitOrder Zia.exampleHandlers Zia.exampleRequest).getD 1 0))
      ∧ (Zia.visitOrder Zia.exampleHandlers Zia.exampleRequest).Perm
          (List.range Zia.exampleHandlers.length)
      ∧ Zia.visitOrder Zia.exampleHandlers Zia.exampleRequest = [0, 2, 1] :=
  Zia.priority_visit_order_sorted Zia.exampleHandlers Zia.exampleRequest 0 1
    (by decide) (by decide)

/-- The ordered chain invokes a configuration-order prefix: starting at
configuration index `i`, the invoked indices are `i, i+1, ...` for some
count bounded by the number of remaining handlers. -/
theorem Zia.runChainFrom_prefix (hs : List Zia.ChainHandler) :
    ∀ (i : Nat) (st : Zia.ChainResponse), ∃ k ≤ hs.length,
      (Zia.runChainFrom i st hs).2 = (List.range k).map (· + i) := by
  induction hs with
  | nil => intro i st; exact ⟨0, Nat.le_refl 0, by simp [Zia.runChainFrom]⟩
  | cons h rest ih =>
    intro i st
    by_cases h2 : Zia.is2xx ((h st).code)
    · obtain ⟨k, hk, hinv⟩ := ih (i + 1) (h st)
      refine ⟨k + 1, by simpa using Nat.succ_le_succ hk, ?_⟩
      have step : (Zia.runChainFrom i st (h :: rest)).2
          = i :: (Zia.runChainFrom (i + 1) (h st) rest).2 := by
        simp [Zia.runChainFrom, h2]
      rw [step, hinv, List.range_succ_eq_map, List.map_cons, List.map_map]
      refine congrArg₂ List.cons (by omega) ?_
      apply List.map_congr_left
      intro a _
      simp only [Function.comp_apply, Nat.succ_eq_add_one]
      omega
    · refine ⟨1, by simp, ?_⟩
      have hr : List.range 1 = [0] := rfl
      simp [Zia.runChainFrom, h2, hr]

/-- Claim C3: under the ordered-chain policy handlers are visited strictly in
configuration order over a mutable response implicitly seeded with
status 200; a handler leaving a non-2xx status code terminates the
chain immediately after it runs; the final state is always a response
(written to the connection, no miss state). In the scenario H1 sets
header X and leaves 200, H2 sets code 404, H3 would set header Y: H3 is
never invoked and the written response carries code 404 and header X
but not header Y. -/
theorem Zia.ordered_chain_policy (hs rest : List Zia.ChainHandler)
    (h : Zia.ChainHandler) (i : Nat) (st : Zia.ChainResponse)
    (hstop : Zia.is2xx ((h st).code) = false) :
    Zia.seedResponse.code = 200
      ∧ (∃ k ≤ hs.length, (Zia.runChain hs).2 = List.range k)
      ∧ Zia.runChainFrom i st (h :: rest) = (h st, [i])
      ∧ (Zia.runChain [Zia.chainH1, Zia.chainH2, Zia.chainH3]).2 = [0, 1]
      ∧ (Zia.runChain [Zia.chainH1, Zia.chainH2, Zia.chainH3]).1.code = 404
      ∧ ("X", "x") ∈ (Zia.runChain [Zia.chainH1, Zia.chainH2, Zia.chainH3]).1.headers
      ∧ ∀ v, ("Y", v) ∉ (Zia.runChain [Zia.chainH1, Zia.chainH2, Zia.chainH3]).1.headers := by
  refine ⟨rfl, ?_, ?_, by decide, by decide, by decide, ?_⟩
  · obtain ⟨k, hk, hinv⟩ := Zia.runChainFrom_prefix hs 0 Zia.seedResponse
    exact ⟨k, hk, by simpa using hinv⟩
  · simp [Zia.runChainFrom, hstop]
  · have hh : (Zia.runChain [Zia.chainH1, Zia.chainH2, Zia.chainH3]).1.headers
        = [("X", "x")] := by decide
    intro v hv
    rw [hh] at hv
    have hone := List.mem_singleton.mp hv
    have hYX : ("Y" : String) = "X" := congrArg Prod.fst hone
    exact absurd hYX (by decide)

/-- Witness for claim C3: a chain whose first handler immediately sets 404 stops
after that handler, and the scenario facts hold concretely. -/
theorem Zia.ordered_chain_policy_witness :
    Zia.seedResponse.code = 200
      ∧ (∃ k ≤ ([] : List Zia.ChainHandler).length,
          (Zia.runChain ([] : List Zia.ChainHandler)).2 = List.range k)
      ∧ Zia.runChainFrom 0 Zia.seedResponse [Zia.chainH2]
          = (Zia.chainH2 Zia.seedResponse, [0])
      ∧ (Zia.runChain [Zia.chainH1, Zia.chainH2, Zia.chainH3]).2 = [0, 1]
      ∧ (Zia.runChain [Zia.chainH1, Zia.chainH2, Zia.chainH3]).1.code = 404
      ∧ ("X", "x") ∈ (Zia.runChain [Zia.chainH1, Zia.chainH2, Zia.chainH3]).1.headers
      ∧ ∀ v, ("Y", v) ∉ (Zia.runChain [Zia.chainH1, Zia.chainH2, Zia.chainH3]).1.headers :=
  Zia.ordered_chain_policy [] [] Zia.chainH2 0 Zia.seedResponse (by decide)

/-- Observation fan-out delivers the selected callback to every
configured sniffer in registration order, whatever the failure flags:
the delivery events are exactly one event per sniffer index. -/
theorem Zia.fanout_events (mk : Nat → Zia.SnifferEvent)
    (fails : Zia.Sniffer → Bool) :
    ∀ (sn : List Zia.Sniffer) (base : Nat),
      (Zia.fanout mk fails sn base).1
        = (List.range sn.length).map (fun j => mk (base + j)) := by
  intro sn
  induction sn with
  | nil => intro base; simp [Zia.fanout]
  | cons s rest ih =>
    intro base
    have step : (Zia.fanout mk fails (s :: rest) base).1
        = mk base :: (Zia.fanout mk fails rest (base + 1)).1 := by
      simp [Zia.fanout]
    rw [step, ih (base + 1), List.length_cons, List.range_succ_eq_map,
      List.map_cons, List.map_map]
    refine congrArg₂ List.cons (congrArg mk (by omega)) ?_
    apply List.map_congr_left
    intro a _
    simp only [Function.comp_apply, Nat.succ_eq_add_one]
    exact congrArg mk (by omega)

/-- Fan-out starting at index 0 delivers exactly to indices
`0, ..., n-1` in registration order. -/
theorem Zia.fanout_events_zero (mk : Nat → Zia.SnifferEvent)
    (fails : Zia.Sniffer → Bool) (sn : List Zia.Sniffer) :
    (Zia.fanout mk fails sn 0).1 = (List.range sn.length).map mk := by
  rw [Zia.fanout_events]
  exact List.map_congr_left fun a _ => congrArg mk (by omega)

/-- Every handler invocation on a request to which every configured
handler returns no result produces nothing, whatever index the engine
visits. -/
theorem Zia.produces_none_of_all_none (hs : List Zia.Handler)
    (req : Zia.Request) (hnone : ∀ h ∈ hs, h.handle req = .ok none) :
    ∀ j, Zia.produces hs req j = none := by
  intro j
  unfold Zia.produces
  by_cases hj : j < hs.length
  · rw [List.getD_eq_getElem _ _ hj, hnone _ (hs.getElem_mem hj)]
  · rw [List.getD_eq_default _ _ (Nat.le_of_not_lt hj)]
    rfl

/-- Claim C4: for every request for which every handler returns no result,
the request resolves to a miss, no response bytes are written on that
basis, and every configured sniffer still receives `gotRequest` and
`gotRequestMiss` for that request. -/
theorem Zia.miss_property (hs : List Zia.Handler) (sn : List Zia.Sniffer)
    (req : Zia.Request) (hnone : ∀ h ∈ hs, h.handle req = .ok none) :
    (Zia.processRequest hs sn req).resolution = none
      ∧ Zia.writtenBytes (Zia.processRequest hs sn req) = none
      ∧ ∀ i < sn.length,
          Zia.SnifferEvent.gotRequest i ∈ (Zia.processRequest hs sn req).events
          ∧ Zia.SnifferEvent.gotRequestMiss i
              ∈ (Zia.processRequest hs sn req).events := by
  have hprod := Zia.produces_none_of_all_none hs req hnone
  have hskip := Zia.resolveSeq_skip hs req (Zia.visitOrder hs req) []
    (fun j _ => hprod j)
  have hres : (Zia.resolveSeq hs req (Zia.visitOrder hs req)).1 = none := by
    have h1 := hskip.1
    rw [List.append_nil] at h1
    simpa [Zia.resolveSeq] using h1
  have hpr : Zia.processRequest hs sn req
      = ⟨none,
          (Zia.resolveSeq hs req (Zia.visitOrder hs req)).2.1,
          (Zia.fanout .gotRequest Zia.Sniffer.failOnRequest sn 0).1
            ++ (Zia.fanout .gotRequestMiss Zia.Sniffer.failOnMiss sn 0).1,
          (Zia.fanout .gotRequest Zia.Sniffer.failOnRequest sn 0).2
            ++ (Zia.resolveSeq hs req (Zia.visitOrder hs req)).2.2
            ++ (Zia.fanout .gotRequestMiss Zia.Sniffer.failOnMiss sn 0).2⟩ := by
    unfold Zia.processRequest
    simp only [hres]
  refine ⟨by rw [hpr], by rw [hpr]; rfl, ?_⟩
  intro i hi
  rw [hpr]
  simp only [List.mem_append]
  constructor
  · exact Or.inl (by
      rw [Zia.fanout_events_zero]
      exact List.mem_map_of_mem _ (List.mem_range.mpr hi))
  · exact Or.inr (by
      rw [Zia.fanout_events_zero]
      exact List.mem_map_of_mem _ (List.mem_range.mpr hi))

/-- Witness for claim C4: one handler that declines every request, two sniffers
(the first failing on `gotRequest`): the request misses, nothing is
written, and both sniffers receive both callbacks. -/
theorem Zia.miss_property_witness :
    (Zia.processRequest [⟨[], fun _ => .ok none⟩]
        [⟨true, false, false⟩, ⟨false, false, false⟩]
        Zia.exampleRequest).resolution = none
      ∧ Zia.writtenBytes (Zia.processRequest [⟨[], fun _ => .ok none⟩]
          [⟨true, false, false⟩, ⟨false, false, false⟩]
          Zia.exampleRequest) = none
      ∧ ∀ i < ([⟨true, false, false⟩, ⟨false, false, false⟩] :
            List Zia.Sniffer).length,
          Zia.SnifferEvent.gotRequest i
              ∈ (Zia.processRequest [⟨[], fun _ => .ok none⟩]
                  [⟨true, false, false⟩, ⟨false, false, false⟩]
                  Zia.exampleRequest).events
          ∧ Zia.SnifferEvent.gotRequestMiss i
              ∈ (Zia.processRequest [⟨[], fun _ => .ok none⟩]
                  [⟨true, false, false⟩, ⟨false, false, false⟩]
                  Zia.exampleRequest).events :=
  Zia.miss_property [⟨[], fun _ => .ok none⟩]
    [⟨true, false, false⟩, ⟨false, false, false⟩] Zia.exampleRequest
    (by intro h hh; rw [List.mem_singleton] at hh; subst hh; rfl)

/-- The events of a processed request always start with the
`gotRequest` deliveries, followed by the resolution-dependent
deliveries. -/
theorem Zia.processRequest_events (hs : List Zia.Handler)
    (sn : List Zia.Sniffer) (req : Zia.Request) :
    (Zia.processRequest hs sn req).events
      = (Zia.fanout .gotRequest Zia.Sniffer.failOnRequest sn 0).1
        ++ (match (Zia.resolveSeq hs req (Zia.visitOrder hs req)).1 with
            | some _ => (Zia.fanout .gotResponse Zia.Sniffer.failOnResponse sn 0).1
            | none => (Zia.fanout .gotRequestMiss Zia.Sniffer.failOnMiss sn 0).1) := by
  unfold Zia.processRequest
  cases h : (Zia.resolveSeq hs req (Zia.visitOrder hs req)).1 <;> simp [h]

/-- The resolution of a processed request is exactly the resolution of
the handler visitation; the sniffers play no part in it. -/
theorem Zia.processRequest_resolution (hs : List Zia.Handler)
    (sn : List Zia.Sniffer) (req : Zia.Request) :
    (Zia.processRequest hs sn req).resolution
      = (Zia.resolveSeq hs req (Zia.visitOrder hs req)).1 := by
  unfold Zia.processRequest
  cases h : (Zia.resolveSeq hs req (Zia.visitOrder hs req)).1 <;> simp [h]

/-- Log fan-out delivers the line to every configured logger in
registration order, whatever the failure behaviours. -/
theorem Zia.logFanout_delivers :
    ∀ (lgs : List Zia.Logger) (line : String) (base : Nat),
      (Zia.logFanout lgs line base).1
        = (List.range lgs.length).map (fun j => base + j) := by
  intro lgs
  induction lgs with
  | nil => intro line base; simp [Zia.logFanout]
  | cons l rest ih =>
    intro line base
    have step : (Zia.logFanout (l :: rest) line base).1
        = base :: (Zia.logFanout rest line (base + 1)).1 := by
      simp [Zia.logFanout]
    rw [step, ih line (base + 1), List.length_cons, List.range_succ_eq_map,
      List.map_cons, List.map_map]
    refine congrArg₂ List.cons (by omega) ?_
    apply List.map_congr_left
    intro a _
    simp only [Function.comp_apply, Nat.succ_eq_add_one]
    omega

/-- Claim C5: failing module invocations are isolated per call: a failing
handler is treated as no result, its failure is logged via the
connection logger, and the engine continues to the next handler (here:
every non-producing handler before the resolver, failing or not, is
passed over and the resolver still resolves); a sniffer failing on
`gotRequest` prevents no later-registered sniffer from receiving
`gotRequest` and never alters the resolution outcome; a failing logger
prevents no delivery of the line to the other loggers. -/
theorem Zia.failure_isolation (hs : List Zia.Handler) (req : Zia.Request)
    (pre post : List Nat) (k : Nat) (r : Zia.Response)
    (sn sn' : List Zia.Sniffer) (lgs : List Zia.Logger) (line : String)
    (hpre : ∀ j ∈ pre, Zia.produces hs req j = none)
    (hk : (hs.getD k Zia.Handler.dummy).handle req = .ok (some r)) :
    (Zia.resolveSeq hs req (pre ++ k :: post)).1 = some r
      ∧ (Zia.resolveSeq hs req (pre ++ k :: post)).2.1 = pre ++ [k]
      ∧ (∀ j ∈ pre, (hs.getD j Zia.Handler.dummy).handle req = .fail →
          Zia.failLog j ∈ (Zia.resolveSeq hs req (pre ++ k :: post)).2.2)
      ∧ (∀ i < sn.length,
          Zia.SnifferEvent.gotRequest i ∈ (Zia.processRequest hs sn req).events)
      ∧ (Zia.processRequest hs sn req).resolution
          = (Zia.processRequest hs sn' req).resolution
      ∧ (∀ i < lgs.length, i ∈ (Zia.logFanout lgs line 0).1) := by
  obtain ⟨h1, h2, h3⟩ := Zia.resolveSeq_skip hs req pre (k :: post) hpre
  have hkstep : Zia.resolveSeq hs req (k :: post) = (some r, [k], []) := by
    simp only [List.getD_eq_getElem?_getD] at hk
    simp [Zia.resolveSeq, hk]
  refine ⟨by rw [h1, hkstep], by rw [h2, hkstep], ?_, ?_, ?_, ?_⟩
  · intro j hj hfail
    rw [h3, hkstep]
    apply List.mem_append.mpr
    refine Or.inl (List.mem_map_of_mem _ ?_)
    refine List.mem_filter.mpr ⟨hj, ?_⟩
    simp only [List.getD_eq_getElem?_getD] at hfail
    simp [hfail]
  · intro i hi
    rw [Zia.processRequest_events, List.mem_append]
    refine Or.inl ?_
    rw [Zia.fanout_events_zero]
    exact List.mem_map_of_mem _ (List.mem_range.mpr hi)
  · rw [Zia.processRequest_resolution, Zia.processRequest_resolution]
  · intro i hi
    rw [Zia.logFanout_delivers]
    have : i ∈ List.range lgs.length := List.mem_range.mpr hi
    exact List.mem_map.mpr ⟨i, this, by omega⟩

/-- Witness for claim C5: handler 0 fails, handler 1 declines, handler 2
produces; two sniffers (the first failing everywhere) and one failing
logger among two: the request still resolves via handler 2, the failure
of handler 0 is logged, both sniffers receive `gotRequest`, the
resolution matches the sniffer-free engine, and both loggers receive
the line. -/
theorem Zia.failure_isolation_witness :
    (Zia.resolveSeq
        [⟨[], fun _ => .fail⟩, ⟨[], fun _ => .ok none⟩,
         ⟨[], fun _ => .ok (some ⟨['o', 'k']⟩)⟩]
        Zia.exampleRequest ([0, 1] ++ 2 :: [])).1 = some ⟨['o', 'k']⟩
      ∧ (Zia.resolveSeq
          [⟨[], fun _ => .fail⟩, ⟨[], fun _ => .ok none⟩,
           ⟨[], fun _ => .ok (some ⟨['o', 'k']⟩)⟩]
          Zia.exampleRequest ([0, 1] ++ 2 :: [])).2.1 = [0, 1] ++ [2]
      ∧ (∀ j ∈ [0, 1],
          (([⟨[], fun _ => .fail⟩, ⟨[], fun _ => .ok none⟩,
             ⟨[], fun _ => .ok (some ⟨['o', 'k']⟩)⟩] :
              List Zia.Handler).getD j Zia.Handler.dummy).handle
              Zia.exampleRequest = .fail →
          Zia.failLog j ∈ (Zia.resolveSeq
            [⟨[], fun _ => .fail⟩, ⟨[], fun _ => .ok none⟩,
             ⟨[], fun _ => .ok (some ⟨['o', 'k']⟩)⟩]
            Zia.exampleRequest ([0, 1] ++ 2 :: [])).2.2)
      ∧ (∀ i < ([⟨true, true, true⟩, ⟨false, false, false⟩] :
            List Zia.Sniffer).length,
          Zia.SnifferEvent.gotRequest i
            ∈ (Zia.processRequest
                [⟨[], fun _ => .fail⟩, ⟨[], fun _ => .ok none⟩,
                 ⟨[], fun _ => .ok (some ⟨['o', 'k']⟩)⟩]
                [⟨true, true, true⟩, ⟨false, false, false⟩]
                Zia.exampleRequest).events)
      ∧ (Zia.processRequest
            [⟨[], fun _ => .fail⟩, ⟨[], fun _ => .ok none⟩,
             ⟨[], fun _ => .ok (some ⟨['o', 'k']⟩)⟩]
            [⟨true, true, true⟩, ⟨false, false, false⟩]
            Zia.exampleRequest).resolution
          = (Zia.processRequest
              [⟨[], fun _ => .fail⟩, ⟨[], fun _ => .ok none⟩,
               ⟨[], fun _ => .ok (some ⟨['o', 'k']⟩)⟩]
              ([] : List Zia.Sniffer) Zia.exampleRequest).resolution
      ∧ (∀ i < ([⟨fun _ => true⟩, ⟨fun _ => false⟩] : List Zia.Logger).length,
          i ∈ (Zia.logFanout [⟨fun _ => true⟩, ⟨fun _ => false⟩] "x" 0).1) :=
  Zia.failure_isolation
    [⟨[], fun _ => .fail⟩, ⟨[], fun _ => .ok none⟩,
     ⟨[], fun _ => .ok (some ⟨['o', 'k']⟩)⟩]
    Zia.exampleRequest [0, 1] [] 2 ⟨['o', 'k']⟩
    [⟨true, true, true⟩, ⟨false, false, false⟩] []
    [⟨fun _ => true⟩, ⟨fun _ => false⟩] "x"
    (by decide) (by decide)

/-- The writer invariant only depends on the completion predicate up to
pointwise equivalence. -/
theorem Zia.WriterInv_congr (resp : Nat → List Char) (P Q : Nat → Prop)
    (st : Zia.WState) (hPQ : ∀ j, P j ↔ Q j)
    (h : Zia.WriterInv resp P st) : Zia.WriterInv resp Q st := by
  obtain ⟨h1, h2, h3, h4, h5⟩ := h
  exact ⟨fun j hj => (hPQ j).mp (h1 j hj),
    fun j => (h2 j).trans (and_congr_left fun _ => hPQ j),
    fun hQ => h3 ((hPQ st.next).mpr hQ), h4, h5⟩

/-- Flushing preserves the writer invariant: starting from a buffer
that holds exactly the completed not-yet-written indices, with enough
fuel, the flush writes every due response in emission order and leaves
a state satisfying the invariant. -/
theorem Zia.flushW_inv (resp : Nat → List Char) (Q : Nat → Prop) :
    ∀ (fuel next : Nat) (buf : List Nat) (out : List Char),
      buf.Nodup →
      (∀ j, j ∈ buf ↔ (Q j ∧ next ≤ j)) →
      (∀ j < next, Q j) →
      out = ((List.range next).map resp).flatten →
      buf.length ≤ fuel →
      Zia.WriterInv resp Q (Zia.flushW resp fuel next buf out) := by
  intro fuel
  induction fuel with
  | zero =>
    intro next buf out hnd hmem hlt hout hlen
    have hbuf : buf = [] := List.eq_nil_of_length_eq_zero (Nat.le_zero.mp hlen)
    subst hbuf
    refine ⟨hlt, hmem, ?_, List.nodup_nil, hout⟩
    intro hQ
    exact List.not_mem_nil next ((hmem next).mpr ⟨hQ, Nat.le_refl next⟩)
  | succ fuel ih =>
    intro next buf out hnd hmem hlt hout hlen
    by_cases hin : next ∈ buf
    · have hstep : Zia.flushW resp (fuel + 1) next buf out
          = Zia.flushW resp fuel (next + 1) (buf.erase next)
              (out ++ resp next) := by
        simp [Zia.flushW, hin]
      rw [hstep]
      apply ih
      · exact hnd.erase next
      · intro j
        rw [hnd.mem_erase_iff, hmem j]
        constructor
        · rintro ⟨hne, hQ, hle⟩
          exact ⟨hQ, by omega⟩
        · rintro ⟨hQ, hle⟩
          exact ⟨by omega, hQ, by omega⟩
      · intro j hj
        rcases Nat.lt_succ_iff_lt_or_eq.mp hj with hj | hj
        · exact hlt j hj
        · subst hj; exact ((hmem j).mp hin).1
      · rw [hout, List.range_succ, List.map_append, List.flatten_append]
        simp
      · have := List.length_erase_of_mem hin
        omega
    · have hstep : Zia.flushW resp (fuel + 1) next buf out
          = ⟨next, buf, out⟩ := by
        simp [Zia.flushW, hin]
      rw [hstep]
      refine ⟨hlt, hmem, ?_, hnd, hout⟩
      intro hQ
      exact hin ((hmem next).mpr ⟨hQ, Nat.le_refl next⟩)

/-- One completion step preserves the writer invariant, extending the
completion predicate by the newly completed emission index. -/
theorem Zia.stepW_inv (resp : Nat → List Char) (P : Nat → Prop)
    (st : Zia.WState) (i : Nat) (hInv : Zia.WriterInv resp P st)
    (hiP : ¬ P i) :
    Zia.WriterInv resp (fun j => j = i ∨ P j) (Zia.stepW resp st i) := by
  obtain ⟨hlt, hmem, hnext, hnd, hout⟩ := hInv
  have hni : st.next ≤ i := by
    by_contra h
    exact hiP (hlt i (Nat.lt_of_not_le h))
  have hibuf : i ∉ st.buf := fun h => hiP ((hmem i).mp h).1
  unfold Zia.stepW
  apply Zia.flushW_inv
  · exact List.nodup_cons.mpr ⟨hibuf, hnd⟩
  · intro j
    simp only [List.mem_cons]
    constructor
    · rintro (rfl | hj)
      · exact ⟨Or.inl rfl, hni⟩
      · obtain ⟨hQ, hle⟩ := (hmem j).mp hj
        exact ⟨Or.inr hQ, hle⟩
    · rintro ⟨hQ | hQ, hle⟩
      · exact Or.inl hQ
      · exact Or.inr ((hmem j).mpr ⟨hQ, hle⟩)
  · intro j hj
    exact Or.inr (hlt j hj)
  · exact hout
  · exact Nat.le_refl _

/-- Folding the writer over a duplicate-free completion schedule of
fresh indices preserves the invariant, the completion predicate growing
by the schedule's members. -/
theorem Zia.runWriter_inv (resp : Nat → List Char) :
    ∀ (order : List Nat) (P : Nat → Prop) (st : Zia.WState),
      order.Nodup → (∀ i ∈ order, ¬ P i) → Zia.WriterInv resp P st →
      Zia.WriterInv resp (fun j => j ∈ order ∨ P j)
        (order.foldl (Zia.stepW resp) st) := by
  intro order
  induction order with
  | nil =>
    intro P st _ _ hInv
    exact Zia.WriterInv_congr resp P _ st (fun j => by simp) hInv
  | cons i rest ih =>
    intro P st hnd hfresh hInv
    simp only [List.foldl_cons]
    have hnotrest : i ∉ rest := (List.nodup_cons.mp hnd).1
    have h1 := Zia.stepW_inv resp P st i hInv
      (hfresh i (List.mem_cons_self i rest))
    have h2 := ih (fun j => j = i ∨ P j) (Zia.stepW resp st i)
      (List.nodup_cons.mp hnd).2
      (by
        intro a ha
        rintro (rfl | hPa)
        · exact hnotrest ha
        · exact hfresh a (List.mem_cons_of_mem i ha) hPa)
      h1
    refine Zia.WriterInv_congr resp _ _ _ (fun j => ?_) h2
    simp only [List.mem_cons]
    tauto

/-- Claim C7: for every single connection, every count `n` of requests
emitted by the parser, and every completion schedule (any permutation
of the emission indices, modelling resolutions finishing out of order),
the serialized writer writes the responses to the client in exactly the
emission (FIFO) order: the final output stream is the concatenation, in
emission order, of the individual responses' bytes — each response a
contiguous segment, so bytes of two in-flight responses are never
interleaved — and the writer finishes with all `n` responses written
and an empty buffer. -/
theorem Zia.connection_fifo_serialized_writes (resp : Nat → List Char)
    (n : Nat) (order : List Nat) (hperm : order.Perm (List.range n)) :
    (Zia.runWriter resp order).out = ((List.range n).map resp).flatten
      ∧ (Zia.runWriter resp order).next = n
      ∧ (Zia.runWriter resp order).buf = [] := by
  have hnd : order.Nodup := hperm.nodup_iff.mpr (List.nodup_range n)
  have hInv0 : Zia.WriterInv resp (fun _ => False) ⟨0, [], []⟩ := by
    refine ⟨fun j hj => absurd hj (Nat.not_lt_zero j), fun j => ?_,
      fun h => h, List.nodup_nil, by simp⟩
    simp
  have h := Zia.runWriter_inv resp order (fun _ => False) ⟨0, [], []⟩ hnd
    (fun _ _ hf => hf) hInv0
  have hmemiff : ∀ j, ((j ∈ order ∨ False) ↔ j < n) := by
    intro j
    rw [or_false, hperm.mem_iff, List.mem_range]
  obtain ⟨hlt, hmem, hnext, _, hout⟩ := h
  have hrw : Zia.runWriter resp order
      = order.foldl (Zia.stepW resp) ⟨0, [], []⟩ := rfl
  rw [hrw]
  set st := order.foldl (Zia.stepW resp) ⟨0, [], []⟩ with hst
  have hnlt : ¬ st.next < n := fun hc => hnext ((hmemiff st.next).mpr hc)
  have hle : st.next ≤ n := by
    by_contra hc
    have hn : n < st.next := Nat.lt_of_not_le hc
    exact absurd ((hmemiff n).mp (hlt n hn)) (by omega)
  have hn : st.next = n := by omega
  refine ⟨by rw [hout, hn], hn, ?_⟩
  apply List.eq_nil_iff_forall_not_mem.mpr
  intro j hj
  have hj2 := (hmem j).mp hj
  have hj3 : j < n := (hmemiff j).mp hj2.1
  have hj4 : st.next ≤ j := hj2.2
  omega

/-- Witness for claim C7: three responses completing in the order 2, 0, 1 are
still written as response 0, then 1, then 2 — the output stream is
their concatenation in emission order, with nothing left buffered. -/
theorem Zia.connection_fifo_serialized_writes_witness :
    (Zia.runWriter (fun i => [Char.ofNat (65 + i)]) [2, 0, 1]).out
        = ((List.range 3).map (fun i => [Char.ofNat (65 + i)])).flatten
      ∧ (Zia.runWriter (fun i => [Char.ofNat (65 + i)]) [2, 0, 1]).next = 3
      ∧ (Zia.runWriter (fun i => [Char.ofNat (65 + i)]) [2, 0, 1]).buf = [] :=
  Zia.connection_fifo_serialized_writes (fun i => [Char.ofNat (65 + i)]) 3
    [2, 0, 1] (by decide)

/-- Driving a write against a stream that never accepts bytes consumes
exactly the retry budget and then drops: every attempt returns 0, so
after `budget + 1` attempts the connection is dropped and the drop is
logged, whatever bytes remain. -/
theorem Zia.driveWrite_all_zero (s : Zia.OutStream)
    (hzero : ∀ a n, s.write a n = 0) :
    ∀ (budget fuel attempt rem : Nat), budget + 1 ≤ fuel →
      Zia.driveWrite s fuel attempt budget (rem + 1)
        = ⟨.dropped, attempt + budget + 1, [Zia.dropLog]⟩ := by
  intro budget
  induction budget with
  | zero =>
    intro fuel attempt rem hf
    match fuel, hf with
    | f + 1, _ => simp [Zia.driveWrite, hzero]
  | succ b ih =>
    intro fuel attempt rem hf
    match fuel, hf with
    | f + 1, hf =>
      have hb : b + 1 ≤ f := by omega
      have hstep : Zia.driveWrite s (f + 1) attempt (b + 1) (rem + 1)
          = Zia.driveWrite s f (attempt + 1) b (rem + 1) := by
        simp [Zia.driveWrite, hzero]
      rw [hstep, ih f (attempt + 1) rem hb]
      have harith : attempt + 1 + b + 1 = attempt + (b + 1) + 1 := by omega
      rw [harith]

/-- Claim C8: for every stream whose write always returns 0, the engine never
hangs unboundedly: the write pump terminates within the bounded retry
window (`budget + 1` attempts), drops the connection and logs the drop;
and read and write are always non-blocking, returning 0..N bytes
immediately, a 0 meaning backpressure (handled by retrying), never EOF
or failure. -/
theorem Zia.nonblocking_write_drop (s : Zia.OutStream) (budget : Nat)
    (data : List Char) (hzero : ∀ a n, s.write a n = 0)
    (hne : data ≠ []) :
    (Zia.writeResponse s budget data).status = .dropped
      ∧ Zia.dropLog ∈ (Zia.writeResponse s budget data).log
      ∧ (Zia.writeResponse s budget data).attempts ≤ budget + 1
      ∧ (∀ (s' : Zia.OutStream) (a n : Nat), s'.write a n ≤ n)
      ∧ (∀ (s' : Zia.InStream) (a n : Nat), s'.read a n ≤ n) := by
  obtain ⟨len, hlen⟩ : ∃ m, data.length = m + 1 := by
    cases data with
    | nil => exact absurd rfl hne
    | cons c cs => exact ⟨cs.length, by simp⟩
  have hrun : Zia.writeResponse s budget data
      = ⟨.dropped, 0 + budget + 1, [Zia.dropLog]⟩ := by
    unfold Zia.writeResponse
    rw [hlen]
    exact Zia.driveWrite_all_zero s hzero budget (budget + (len + 1) + 1) 0
      len (by omega)
  refine ⟨by rw [hrun], by rw [hrun]; exact List.mem_singleton.mpr rfl,
    by rw [hrun]; show 0 + budget + 1 ≤ budget + 1; omega,
    fun s' a n => s'.write_le a n,
    fun s' a n => s'.read_le a n⟩

/-- Witness for claim C8: a stream that always accepts 0 bytes, budget 2, one
byte to write: the write is dropped after 3 attempts with the drop
logged, and the stream bounds hold. -/
theorem Zia.nonblocking_write_drop_witness :
    (Zia.writeResponse ⟨fun _ _ => 0, fun _ n => Nat.zero_le n⟩ 2
        ['a']).status = .dropped
      ∧ Zia.dropLog ∈ (Zia.writeResponse
          ⟨fun _ _ => 0, fun _ n => Nat.zero_le n⟩ 2 ['a']).log
      ∧ (Zia.writeResponse ⟨fun _ _ => 0, fun _ n => Nat.zero_le n⟩ 2
          ['a']).attempts ≤ 2 + 1
      ∧ (∀ (s' : Zia.OutStream) (a n : Nat), s'.write a n ≤ n)
      ∧ (∀ (s' : Zia.InStream) (a n : Nat), s'.read a n ≤ n) :=
  Zia.nonblocking_write_drop ⟨fun _ _ => 0, fun _ n => Nat.zero_le n⟩ 2
    ['a'] (fun _ _ => rfl) (by simp)

/-- Indexing the two-element tail of an appended list. -/
theorem Zia.getElem?_append_pair {α : Type _} (A : List α) (d b : α) :
    (A ++ [d, b])[A.length]? = some d
      ∧ (A ++ [d, b])[A.length + 1]? = some b := by
  induction A with
  | nil => exact ⟨rfl, rfl⟩
  | cons x xs ih => simpa using ih

/-- The I/O phase of a wrapped connection produces only I/O events on
the derived connection; none of the lifecycle markers appear there. -/
theorem Zia.map_ioEvent_not_mem (ops : List Zia.ConnOp) (e : Zia.ConnEvent)
    (h1 : ∀ t', e ≠ .ioRead t') (h2 : ∀ t', e ≠ .ioWrite t') :
    e ∉ ops.map (Zia.ioEvent true) := by
  intro hm
  obtain ⟨op, _, heq⟩ := List.mem_map.mp hm
  cases op with
  | opRead => exact h1 _ heq.symm
  | opWrite => exact h2 _ heq.symm

/-- Claim C9: for every new client connection with a connection wrapper
configured, the wrapper's `create(baseConnection)` is invoked exactly
once (right after accept); every read and write for the client then
goes through the derived connection; and on teardown the derived
connection is destroyed exactly once, strictly before the base
connection. -/
theorem Zia.wrapper_lifecycle (ops : List Zia.ConnOp) (t : Zia.ConnTarget)
    (hio : Zia.ConnEvent.ioRead t ∈ Zia.connectionLifecycle true ops
      ∨ Zia.ConnEvent.ioWrite t ∈ Zia.connectionLifecycle true ops) :
    t = .derived
      ∧ (Zia.connectionLifecycle true ops).count .wrapCreate = 1
      ∧ (Zia.connectionLifecycle true ops).count .destroyDerived = 1
      ∧ (Zia.connectionLifecycle true ops).count .destroyBase = 1
      ∧ (∃ i j : Nat, i < j
          ∧ (Zia.connectionLifecycle true ops)[i]?
              = some Zia.ConnEvent.destroyDerived
          ∧ (Zia.connectionLifecycle true ops)[j]?
              = some Zia.ConnEvent.destroyBase)
      ∧ (Zia.connectionLifecycle true ops)[0]?
          = some Zia.ConnEvent.acceptBase
      ∧ (Zia.connectionLifecycle true ops)[1]?
          = some Zia.ConnEvent.wrapCreate := by
  have htr : Zia.connectionLifecycle true ops
      = .acceptBase :: .wrapCreate ::
          (ops.map (Zia.ioEvent true) ++ [.destroyDerived, .destroyBase]) := by
    simp [Zia.connectionLifecycle, Zia.setupEvents, Zia.teardownEvents]
  have htr2 : Zia.connectionLifecycle true ops
      = (Zia.ConnEvent.acceptBase :: Zia.ConnEvent.wrapCreate ::
          ops.map (Zia.ioEvent true)) ++ [.destroyDerived, .destroyBase] := by
    rw [htr]; simp
  have hder : t = .derived := by
    have hget : ∀ (mk : Zia.ConnTarget → Zia.ConnEvent),
        (∀ op t', Zia.ioEvent true op = mk t' → t' = .derived) →
        mk t ∈ Zia.connectionLifecycle true ops →
        (∀ t', mk t' ≠ .acceptBase) → (∀ t', mk t' ≠ .wrapCreate) →
        (∀ t', mk t' ≠ .destroyDerived) → (∀ t', mk t' ≠ .destroyBase) →
        t = .derived := by
      intro mk hmk hm hne1 hne2 hne3 hne4
      rw [htr] at hm
      rcases List.mem_cons.mp hm with h | hm
      · exact absurd h (hne1 t)
      rcases List.mem_cons.mp hm with h | hm
      · exact absurd h (hne2 t)
      rcases List.mem_append.mp hm with hm | hm
      · obtain ⟨op, _, heq⟩ := List.mem_map.mp hm
        exact hmk op t heq
      rcases List.mem_cons.mp hm with h | hm
      · exact absurd h (hne3 t)
      rcases List.mem_cons.mp hm with h | hm
      · exact absurd h (hne4 t)
      · exact absurd hm (List.not_mem_nil _)
    rcases hio with h | h
    · refine hget .ioRead ?_ h (by intro t' hc; cases hc) (by intro t' hc; cases hc)
        (by intro t' hc; cases hc) (by intro t' hc; cases hc)
      intro op t' heq
      cases op with
      | opRead => cases heq; rfl
      | opWrite => cases heq
    · refine hget .ioWrite ?_ h (by intro t' hc; cases hc) (by intro t' hc; cases hc)
        (by intro t' hc; cases hc) (by intro t' hc; cases hc)
      intro op t' heq
      cases op with
      | opRead => cases heq
      | opWrite => cases heq; rfl
  have hcount : ∀ (e : Zia.ConnEvent), (∀ t', e ≠ .ioRead t') →
      (∀ t', e ≠ .ioWrite t') →
      (Zia.connectionLifecycle true ops).count e
        = ([Zia.ConnEvent.acceptBase, .wrapCreate, .destroyDerived,
            .destroyBase] : List Zia.ConnEvent).count e := by
    intro e he1 he2
    rw [htr]
    have hzero : (ops.map (Zia.ioEvent true)).count e = 0 :=
      List.count_eq_zero.mpr (Zia.map_ioEvent_not_mem ops e he1 he2)
    simp [List.count_cons, List.count_append, hzero]
  obtain ⟨hd, hb⟩ := Zia.getElem?_append_pair
    (Zia.ConnEvent.acceptBase :: Zia.ConnEvent.wrapCreate ::
      ops.map (Zia.ioEvent true)) Zia.ConnEvent.destroyDerived
    Zia.ConnEvent.destroyBase
  refine ⟨hder,
    by rw [hcount _ (fun t' hc => by cases hc) (fun t' hc => by cases hc)]; rfl,
    by rw [hcount _ (fun t' hc => by cases hc) (fun t' hc => by cases hc)]; rfl,
    by rw [hcount _ (fun t' hc => by cases hc) (fun t' hc => by cases hc)]; rfl,
    ⟨(Zia.ConnEvent.acceptBase :: Zia.ConnEvent.wrapCreate ::
        ops.map (Zia.ioEvent true)).length,
      (Zia.ConnEvent.acceptBase :: Zia.ConnEvent.wrapCreate ::
        ops.map (Zia.ioEvent true)).length + 1,
      Nat.lt_succ_self _, by rw [htr2]; exact hd, by rw [htr2]; exact hb⟩,
    by rw [htr]; simp, by rw [htr]; simp⟩

/-- Witness for claim C9: a wrapped connection doing one read routes it through
the derived connection, creates the wrapper once, and tears the derived
connection down strictly before the base one. -/
theorem Zia.wrapper_lifecycle_witness :
    Zia.ConnTarget.derived = Zia.ConnTarget.derived
      ∧ (Zia.connectionLifecycle true [.opRead]).count .wrapCreate = 1
      ∧ (Zia.connectionLifecycle true [.opRead]).count .destroyDerived = 1
      ∧ (Zia.connectionLifecycle true [.opRead]).count .destroyBase = 1
      ∧ (∃ i j : Nat, i < j
          ∧ (Zia.connectionLifecycle true [.opRead])[i]?
              = some Zia.ConnEvent.destroyDerived
          ∧ (Zia.connectionLifecycle true [.opRead])[j]?
              = some Zia.ConnEvent.destroyBase)
      ∧ (Zia.connectionLifecycle true [.opRead])[0]?
          = some Zia.ConnEvent.acceptBase
      ∧ (Zia.connectionLifecycle true [.opRead])[1]?
          = some Zia.ConnEvent.wrapCreate :=
  Zia.wrapper_lifecycle [.opRead] .derived (Or.inl (by decide))

/-- Folding `max` over a list of weights is invariant under
permutation of the list. -/
theorem Zia.foldr_max_perm {l l' : List (WithBot ℚ)} (h : l.Perm l') :
    ∀ init, l.foldr max init = l'.foldr max init := by
  induction h with
  | nil => intro init; rfl
  | cons x _ ih => intro init; simp only [List.foldr_cons, ih init]
  | swap x y l => intro init; simp only [List.foldr_cons]; exact max_left_comm _ _ _
  | trans _ _ ih1 ih2 => intro init; rw [ih1 init, ih2 init]

/-- The best-matching weight of a handler depends only on the set of
declared (pattern, weight) pairs, never on the order `getAccept`
returns them in. -/
theorem Zia.bestWeight_perm (a a' : List (String × ℚ))
    (h : a.Perm a') (ranges : List Zia.MediaRange) :
    Zia.bestWeight a ranges = Zia.bestWeight a' ranges := by
  unfold Zia.bestWeight
  exact Zia.foldr_max_perm ((h.filter _).map _) ⊥

/-- Claim C10: for every handler set and every per-handler permutation of the
(media-type, priority) pairs returned by `getAccept`, the engine's
computed visitation order for any request is unchanged: the order
depends only on the declared pairs (and registration order), never on
the order of elements in the returned vector. -/
theorem Zia.visit_order_getAccept_perm_invariant
    (hs hs' : List Zia.Handler) (req : Zia.Request)
    (hf : List.Forall₂ (fun h h' => h.getAccept.Perm h'.getAccept) hs hs') :
    Zia.visitOrder hs req = Zia.visitOrder hs' req := by
  have hlen : hs.length = hs'.length := hf.length_eq
  have hw : Zia.handlerWeight hs req = Zia.handlerWeight hs' req := by
    funext i
    unfold Zia.handlerWeight
    by_cases hi : i < hs.length
    · have hi' : i < hs'.length := hlen ▸ hi
      rw [List.getD_eq_getElem _ _ hi, List.getD_eq_getElem _ _ hi']
      have hp := hf.get hi hi'
      simp only [List.get_eq_getElem] at hp
      exact Zia.bestWeight_perm _ _ hp req.accept
    · rw [List.getD_eq_default _ _ (Nat.le_of_not_lt hi),
        List.getD_eq_default _ _ (Nat.le_of_not_lt (hlen ▸ hi))]
  unfold Zia.visitOrder
  rw [hw, hlen]

/-- Witness for claim C10: one handler declaring two pairs, listed in the two
possible orders: the computed visitation order is identical. -/
theorem Zia.visit_order_getAccept_perm_invariant_witness :
    Zia.visitOrder
        [⟨[("text/html", mkRat 9 10), ("text/*", mkRat 1 2)],
          fun _ => .ok none⟩]
        Zia.exampleRequest
      = Zia.visitOrder
          [⟨[("text/*", mkRat 1 2), ("text/html", mkRat 9 10)],
            fun _ => .ok none⟩]
          Zia.exampleRequest :=
  Zia.visit_order_getAccept_perm_invariant _ _ Zia.exampleRequest
    (List.Forall₂.cons (by decide) List.Forall₂.nil)
